import Mathlib

/-!
Shallow embedding of the message-coalescing and conversation-state core of
the `jessexbt-xmtp` agent (TypeScript sources under `src/`).

Modelled components:
* the Coalescing Scheduler `addMessageToBatch` and its debounce timers
  (src/index.ts, lines 24-102) together with the text-handler flush
  callback that combines batched fragments (src/index.ts, lines 359-370);
* the Deduplication Ledger `processedMessages` with its two insertion
  paths (src/index.ts, lines 187-203 and 439-448);
* the Staleness Detector `DBHealthService.checkMessageArray`;
* the Conversation Mapping Store of `ReplyService`
  (`addMapping`, `cleanupOldMappings`, `sendReply`) and the
  `POST /reply` route of `reply.routes.ts`;
* the backend wrapper `BackendApiService.processMessage` and the group
  greeting block of the text handler (src/index.ts, lines 209-275).

JavaScript `Map`s are modelled as insertion-ordered association lists,
`Set<string>` as an insertion-ordered duplicate-free list, timestamps as
`Nat`/`Int` milliseconds, and timers as explicit deadlines processed by a
small-step run function over time-ordered event lists.
-/

/-! ### Association-list model of a JavaScript `Map` -/

/-- `Map.get`: first binding of the key, if any. -/
def alookup {α : Type} : List (String × α) → String → Option α
  | [], _ => none
  | (k, v) :: rest, key => if k = key then some v else alookup rest key

/-- `Map.set`: replace the binding in place if the key exists, otherwise
append a new binding (JavaScript `Map` preserves insertion order). -/
def aset {α : Type} : List (String × α) → String → α → List (String × α)
  | [], key, v => [(key, v)]
  | (k, w) :: rest, key, v =>
    if k = key then (key, v) :: rest else (k, w) :: aset rest key v

/-- Number of bindings carrying a given key. -/
def countKey {α : Type} (st : List (String × α)) (k : String) : Nat :=
  (st.filter (fun p => decide (p.1 = k))).length

/-- The keys of the map are pairwise distinct (true of a real `Map`). -/
def keysNodup {α : Type} (st : List (String × α)) : Prop :=
  (st.map Prod.fst).Nodup

/-! ### Coalescing Scheduler (src/index.ts, lines 24-102) -/

/-- The `type` discriminator of a batched message: `"text" | "image"`. -/
inductive MsgType where
  | text
  | image
deriving DecidableEq

/-- `m.type === "text"`. -/
def MsgType.isText : MsgType → Bool
  | .text => true
  | .image => false

/-- `m.type === "image"`. -/
def MsgType.isImage : MsgType → Bool
  | .text => false
  | .image => true

/-- One element of `PendingMessage.messages`
(src/index.ts, lines 30-35). -/
structure BatchMsg where
  id : String
  type : MsgType
  content : String
  timestamp : Nat
deriving DecidableEq

/-- `MESSAGE_BATCH_DELAY = 1000` (src/index.ts, line 40). -/
def MESSAGE_BATCH_DELAY : Nat := 1000

/-- `` `${conversationId}-${senderAddress}` `` (src/index.ts, line 56). -/
def batchKey (conversationId senderAddress : String) : String :=
  conversationId ++ "-" ++ senderAddress

/-- An invocation of `addMessageToBatch` at a given wall-clock time. -/
structure AddEvent where
  time : Nat
  conversationId : String
  senderAddress : String
  msgId : String
  msgType : MsgType
  content : String
deriving DecidableEq

/-- The batch key computed for an add event. -/
def AddEvent.key (e : AddEvent) : String :=
  batchKey e.conversationId e.senderAddress

/-- The record pushed onto the batch (src/index.ts, lines 66-71);
`timestamp: Date.now()` is the arrival time. -/
def AddEvent.toMsg (e : AddEvent) : BatchMsg :=
  ⟨e.msgId, e.msgType, e.content, e.time⟩

/-- The `pendingMessages` map: batch key to
(accumulated messages, deadline of the live timer). -/
abbrev SchedState : Type := List (String × (List BatchMsg × Nat))

/-- One call of `addMessageToBatch` (src/index.ts, lines 46-102):
the existing timer for the key (if any) is cleared, the fragment is
appended to the existing sequence (or a fresh one), and a new timer is
armed `MESSAGE_BATCH_DELAY` from now. -/
def addMessageToBatch (st : SchedState) (e : AddEvent) : SchedState :=
  let existingMsgs : List BatchMsg :=
    match alookup st e.key with
    | some (msgs, _) => msgs
    | none => []
  aset st e.key (existingMsgs ++ [e.toMsg], e.time + MESSAGE_BATCH_DELAY)

/-- A timer firing: the batch is removed from `pendingMessages` and the
captured message list is handed to the flush callback
(src/index.ts, lines 81-93). -/
structure FlushEvent where
  time : Nat
  key : String
  messages : List BatchMsg
deriving DecidableEq

/-- Fire every timer whose deadline has been reached by time `t`,
removing the flushed batches from the table. -/
def fireDue (t : Nat) : SchedState → List FlushEvent × SchedState
  | [] => ([], [])
  | (k, msgs, d) :: rest =>
    let (fl, st') := fireDue t rest
    if d ≤ t then (⟨d, k, msgs⟩ :: fl, st') else (fl, (k, msgs, d) :: st')

/-- At the end of a run all remaining timers eventually fire. -/
def flushAll : SchedState → List FlushEvent
  | [] => []
  | (k, msgs, d) :: rest => ⟨d, k, msgs⟩ :: flushAll rest

/-- Run the scheduler over a time-ordered list of add events: before each
add, every timer already due fires; afterwards all remaining timers fire.
Returns the flushes (in firing order) and the final table (always empty). -/
def runScheduler : List AddEvent → SchedState → List FlushEvent × SchedState
  | [], st => (flushAll st, [])
  | e :: rest, st =>
    let (fl₁, st₁) := fireDue e.time st
    let (fl₂, st₂) := runScheduler rest (addMessageToBatch st₁ e)
    (fl₁ ++ fl₂, st₂)

/-- The text-handler flush callback's combination step
(src/index.ts, lines 359-370): all `text` contents joined by `"\n\n"`,
then, when any `image` fragment exists, `"\n\n"` and all `image`
contents joined by `"\n\n"`. -/
def combineBatchedMessages (messages : List BatchMsg) : String :=
  let textMessages := messages.filter (fun m => m.type.isText)
  let imageMessages := messages.filter (fun m => m.type.isImage)
  let finalMessage := String.intercalate "\n\n" (textMessages.map (fun m => m.content))
  if imageMessages.length > 0 then
    finalMessage ++ "\n\n" ++ String.intercalate "\n\n" (imageMessages.map (fun m => m.content))
  else
    finalMessage

/-- Spec-side description of the combined text (follows the claim's own
wording, to be compared with `combineBatchedMessages`): all text-kind
fragments in arrival order joined by double newlines, followed, when any
image-derived fragment exists, by a double newline and all image-derived
fragments in arrival order joined by double newlines. -/
def specCombinedText (events : List AddEvent) : String :=
  let texts := (events.filter (fun e => e.msgType.isText)).map (fun e => e.content)
  let images := (events.filter (fun e => e.msgType.isImage)).map (fun e => e.content)
  if images.isEmpty then
    String.intercalate "\n\n" texts
  else
    String.intercalate "\n\n" texts ++ "\n\n" ++ String.intercalate "\n\n" images

/-- Every event arrives no earlier than the previous one and strictly
within `MESSAGE_BATCH_DELAY` of it (the quiet period never elapses
mid-sequence). -/
def withinQuiet : Nat → List AddEvent → Prop
  | _, [] => True
  | t, e :: rest =>
    (t ≤ e.time ∧ e.time < t + MESSAGE_BATCH_DELAY) ∧ withinQuiet e.time rest

/-- Events are listed in arrival order starting no earlier than `t`. -/
def sortedFrom : Nat → List AddEvent → Prop
  | _, [] => True
  | t, e :: rest => t ≤ e.time ∧ sortedFrom e.time rest

def decWithinQuiet : (t : Nat) → (es : List AddEvent) → Decidable (withinQuiet t es)
  | _, [] => .isTrue trivial
  | _, e :: rest => @instDecidableAnd _ _ inferInstance (decWithinQuiet e.time rest)

instance : ∀ (t : Nat) (es : List AddEvent), Decidable (withinQuiet t es) :=
  decWithinQuiet

def decSortedFrom : (t : Nat) → (es : List AddEvent) → Decidable (sortedFrom t es)
  | _, [] => .isTrue trivial
  | _, e :: rest => @instDecidableAnd _ _ inferInstance (decSortedFrom e.time rest)

instance : ∀ (t : Nat) (es : List AddEvent), Decidable (sortedFrom t es) :=
  decSortedFrom

/-- Arrival time of the last event, defaulting to `t`. -/
def lastTime (t : Nat) (es : List AddEvent) : Nat :=
  es.foldl (fun _ e => e.time) t

/-- Timestamp of the last message of a batch (0 for an empty batch). -/
def lastStamp (msgs : List BatchMsg) : Nat :=
  msgs.foldl (fun _ m => m.timestamp) 0

/-! ### Deduplication Ledger (src/index.ts, lines 23-24, 187-203, 439-448) -/

/-- `Set<string>.add`: no-op when present, else append (insertion order). -/
def setAdd (s : List String) (id : String) : List String :=
  if id ∈ s then s else s ++ [id]

/-- The text-handler marking path (src/index.ts, lines 196-203): add the
id, then, if the ledger holds more than 1000 entries, keep only the last
500 in insertion order (`Array.from`, `clear`, `slice(-500)`, re-add). -/
def markProcessedText (s : List String) (id : String) : List String :=
  let added := setAdd s id
  if added.length > 1000 then added.drop (added.length - 500) else added

/-- The reply-handler marking path (src/index.ts, line 448): add the id;
no pruning occurs on this path. -/
def markProcessedReply (s : List String) (id : String) : List String :=
  setAdd s id

/-! ### Staleness Detector (`DBHealthService.checkMessageArray`) -/

/-- Bool comparison of strings by their character codes (the JavaScript
default `Array.sort` comparison for these id strings). -/
def lexLe : List Nat → List Nat → Bool
  | [], _ => true
  | _ :: _, [] => false
  | a :: as, b :: bs => if a < b then true else if b < a then false else lexLe as bs

def strLeB (a b : String) : Bool :=
  lexLe (a.data.map Char.toNat) (b.data.map Char.toNat)

def insertSorted (x : String) : List String → List String
  | [] => [x]
  | y :: ys => if strLeB x y then x :: y :: ys else y :: insertSorted x ys

/-- `messageIds.sort()`. -/
def sortStrings : List String → List String
  | [] => []
  | x :: xs => insertSorted x (sortStrings xs)

/-- The fingerprint of a message-id list: sorted ids joined with `"|"`. -/
def fingerprintOf (ids : List String) : String :=
  String.intercalate "|" (sortStrings ids)

/-- One record of `DBHealthService.conversationHashes`. -/
structure StaleRecord where
  hash : String
  repeatCount : Nat
  lastMessageIds : List String
deriving DecidableEq

abbrev HealthState : Type := List (String × StaleRecord)

/-- `DBHealthService.checkMessageArray` (db-health service, lines 34-86),
taking the message-id list already extracted from the message array.
Returns whether a DB reset is needed and the updated record table;
`REPEAT_THRESHOLD = 3`. -/
def checkMessageArray (st : HealthState) (conversationId : String)
    (msgIds : List String) : Bool × HealthState :=
  let messageIds := sortStrings msgIds
  let hash := String.intercalate "|" messageIds
  match alookup st conversationId with
  | none => (false, aset st conversationId ⟨hash, 1, messageIds⟩)
  | some cached =>
    if cached.hash = hash then
      let updated : StaleRecord := ⟨cached.hash, cached.repeatCount + 1, cached.lastMessageIds⟩
      (decide (3 ≤ updated.repeatCount), aset st conversationId updated)
    else
      (false, aset st conversationId ⟨hash, 1, messageIds⟩)

/-- Results of a sequence of `checkMessageArray` calls for one
conversation, threading the state. -/
def observeSeq (st : HealthState) (c : String) : List (List String) → List Bool
  | [] => []
  | l :: rest =>
    let r := checkMessageArray st c l
    r.1 :: observeSeq r.2 c rest

/-! ### Backend wrapper (`BackendApiService.processMessage`) -/

/-- The `data` field of a backend response body. -/
structure BackendData where
  response : String
  agentId : String
  walletAddress : String
  threadId : Option String
deriving DecidableEq

/-- `BackendMessageResponse` (backend-api service, lines 14-23). -/
structure BackendMessageResponse where
  success : Bool
  data : Option BackendData
  error : Option String
deriving DecidableEq

/-- Outcome of the `axios.post` call inside `processMessage`: a parsed
response body, or one of the rejection modes (network error, timeout). -/
inductive HttpOutcome where
  | ok (resp : BackendMessageResponse)
  | networkError
  | timeout
deriving DecidableEq

/-- The call failed from the caller's point of view: the HTTP request
rejected, or the body's `success` flag is false. -/
def HttpOutcome.isFailure : HttpOutcome → Bool
  | .ok resp => !resp.success
  | .networkError => true
  | .timeout => true

/-- `/\*\*/g` replacement by `""`: drop every `**` occurrence,
left to right, non-overlapping. -/
def stripBold : List Char → List Char
  | '*' :: '*' :: rest => stripBold rest
  | c :: rest => c :: stripBold rest
  | [] => []

/-- `responseText.replace(/\*\*/g, "")` (backend-api service, line 82). -/
def cleanMarkdown (s : String) : String :=
  String.mk (stripBold s.data)

/-- The fixed apology returned by `processMessage` on any failure
(backend-api service, line 98). -/
def techDifficulties : String :=
  "Sorry, I'm experiencing technical difficulties. Please try again in a moment."

/-- `BackendApiService.processMessage` (backend-api service, lines
37-100) as a function of the HTTP outcome: an unsuccessful body is
thrown and, like every rejection, caught by the surrounding
`try`/`catch` which returns the fixed apology; otherwise
`data?.response || "Response received"` is cleaned of `**` and
returned. The function is total: the promise never rejects. -/
def processMessage (outcome : HttpOutcome) : String :=
  match outcome with
  | .networkError => techDifficulties
  | .timeout => techDifficulties
  | .ok resp =>
    if !resp.success then techDifficulties
    else
      let responseText :=
        match resp.data with
        | some d => if d.response = "" then "Response received" else d.response
        | none => "Response received"
      cleanMarkdown responseText

/-! ### Group greeting block (src/index.ts, lines 237-274) -/

/-- The fixed fallback greeting (src/index.ts, lines 256-258). -/
def fallbackGreeting : String :=
  "👋 Hello! I'm your A0x agent. In group chats, I only respond when you reply to my messages. Reply to this message to start interacting with me!"

/-- Observable outcome of the greeting path of the text handler. -/
structure GreetingOutcome where
  sentTexts : List String
  markedGreeted : Bool
  processedFurther : Bool
deriving DecidableEq

/-- The greeting branch for an ungreeted group where the bot has not
posted: compute the greeting via `processMessage` (which never throws),
try to send it; if that send throws, send the fixed fallback instead;
in every case mark the conversation greeted and return without
processing the triggering message (src/index.ts, lines 237-274).
`firstSendOk` / `fallbackSendOk` model whether the respective
`ctx.sendText` call succeeds; `sentTexts` lists delivered texts. -/
def greetingFlow (backend : HttpOutcome) (firstSendOk fallbackSendOk : Bool) :
    GreetingOutcome :=
  let greeting := processMessage backend
  let sentTexts :=
    if firstSendOk then [greeting]
    else if fallbackSendOk then [fallbackGreeting]
    else []
  ⟨sentTexts, true, false⟩

/-! ### Conversation Mapping Store (`ReplyService`) and `POST /reply` -/

/-- `XMTPConversationMapping` (reply.types.ts); `lastActivity` is a
millisecond timestamp. -/
structure XMTPConversationMapping where
  threadId : String
  conversationId : String
  walletAddress : String
  lastActivity : Int
  agentId : Option String
deriving DecidableEq

abbrev MappingStore : Type := List (String × XMTPConversationMapping)

/-- `ReplyService.addMapping` (reply.service.ts, lines 85-99); `now` is
the value of `new Date()` at the call. -/
def addMapping (st : MappingStore) (now : Int)
    (threadId conversationId walletAddress : String)
    (agentId : Option String) : MappingStore :=
  aset st threadId ⟨threadId, conversationId, walletAddress, now, agentId⟩

/-- `ReplyService.cleanupOldMappings` (reply.service.ts, lines 105-123):
delete every mapping whose age `now - lastActivity` strictly exceeds
`maxAgeHours` in milliseconds; return the kept store and the count
removed. -/
def cleanupOldMappings : MappingStore → Int → Int → MappingStore × Nat
  | [], _, _ => ([], 0)
  | (tid, m) :: rest, now, maxAgeHours =>
    let r := cleanupOldMappings rest now maxAgeHours
    if now - m.lastActivity > maxAgeHours * 60 * 60 * 1000 then (r.1, r.2 + 1)
    else ((tid, m) :: r.1, r.2)

/-- A conversation handle returned by
`client.conversations.getConversationById`. -/
structure Conversation where
  id : String
deriving DecidableEq

/-- `XMTPReplyRequest` (reply.types.ts). -/
structure XMTPReplyRequest where
  threadId : Option String
  conversationId : Option String
  message : String
deriving DecidableEq

/-- `XMTPReplyResponse` (reply.types.ts). -/
structure XMTPReplyResponse where
  success : Bool
  conversationId : Option String
  error : Option String
deriving DecidableEq

/-- JavaScript truthiness of an optional string field: `undefined` and
`""` are falsy. -/
def jsTruthy : Option String → Bool
  | none => false
  | some s => !(s == "")

/-- `ReplyService.sendReply` (reply.service.ts, lines 25-83) with the
client present: resolve the conversation via the direct
`conversationId` first, else via the thread mapping (refreshing the
mapping's `lastActivity` when the mapped conversation is found); send
the message to the resolved conversation. Returns the response, the
list of (conversation id, text) sends performed, and the updated
mapping store. -/
def sendReply (getConvById : String → Option Conversation) (st : MappingStore)
    (now : Int) (req : XMTPReplyRequest) :
    XMTPReplyResponse × List (String × String) × MappingStore :=
  let conv0 : Option Conversation :=
    if jsTruthy req.conversationId then getConvById (req.conversationId.getD "")
    else none
  let resolved : Option (Conversation × MappingStore) :=
    match conv0 with
    | some conv => some (conv, st)
    | none =>
      if jsTruthy req.threadId then
        match alookup st (req.threadId.getD "") with
        | some mapping =>
          match getConvById mapping.conversationId with
          | some conv =>
            some (conv, aset st (req.threadId.getD "")
              ⟨mapping.threadId, mapping.conversationId, mapping.walletAddress,
               now, mapping.agentId⟩)
          | none => none
        | none => none
      else none
  match resolved with
  | none => (⟨false, none, some "Conversation not found"⟩, [], st)
  | some (conv, st') => (⟨true, some conv.id, none⟩, [(conv.id, req.message)], st')

/-- Request body of `POST /reply`. -/
structure ReplyBody where
  threadId : Option String
  conversationId : Option String
  message : Option String
deriving DecidableEq

/-- Result of the `POST /reply` route: HTTP status, JSON response,
sends performed, updated store. -/
structure PostReplyResult where
  status : Nat
  response : XMTPReplyResponse
  sent : List (String × String)
  mappings : MappingStore
deriving DecidableEq

/-- The `POST /reply` route (reply.routes.ts, lines 9-42): reject with
400 unless a message and one of threadId/conversationId are present
(JavaScript truthiness); otherwise run `sendReply` and report its
result with status 200 on success, 500 on failure. -/
def postReply (getConvById : String → Option Conversation) (st : MappingStore)
    (now : Int) (body : ReplyBody) : PostReplyResult :=
  if (!(jsTruthy body.threadId) && !(jsTruthy body.conversationId))
      || !(jsTruthy body.message) then
    ⟨400, ⟨false, none, some "message and either threadId or conversationId are required"⟩,
     [], st⟩
  else
    let r := sendReply getConvById st now ⟨body.threadId, body.conversationId, body.message.getD ""⟩
    ⟨if r.1.success then 200 else 500, r.1, r.2.1, r.2.2⟩

/-! ### Concrete ledgers for the dedup-bound analysis -/

/-- Distinct message identifiers: `n` repetitions of `a`. -/
def c4id (n : Nat) : String :=
  String.mk (List.replicate n 'a')

/-- A ledger holding 1000 distinct identifiers, built by insertions. -/
def ledger1000 : List String :=
  ((List.range 1000).map c4id).foldl markProcessedReply []

/-- A ledger holding 1001 distinct identifiers, built by
reply-handler insertions alone (no pruning on that path). -/
def ledger1001 : List String :=
  ((List.range 1001).map c4id).foldl markProcessedReply []

/-! ### Invariant vocabulary for the scheduler proofs -/

/-- A flush respects the debounce contract: the batch is nonempty, the
timer fired exactly `MESSAGE_BATCH_DELAY` after the last appended
fragment, and hence at least `MESSAGE_BATCH_DELAY` after every fragment
of the batch. -/
def flushOk (f : FlushEvent) : Prop :=
  f.messages ≠ [] ∧ f.time = lastStamp f.messages + MESSAGE_BATCH_DELAY ∧
    ∀ m ∈ f.messages, m.timestamp + MESSAGE_BATCH_DELAY ≤ f.time

/-- A live table entry at time `t`: nonempty batch, deadline armed
`MESSAGE_BATCH_DELAY` after the most recent fragment, fragments in
arrival order bounded by the most recent one, which has arrived. -/
def goodEntry (t : Nat) (p : String × (List BatchMsg × Nat)) : Prop :=
  p.2.1 ≠ [] ∧ p.2.2 = lastStamp p.2.1 + MESSAGE_BATCH_DELAY ∧
    (∀ m ∈ p.2.1, m.timestamp ≤ lastStamp p.2.1) ∧ lastStamp p.2.1 ≤ t

/-- Every live entry of the table is good at time `t`. -/
def goodState (t : Nat) (st : SchedState) : Prop :=
  ∀ p ∈ st, goodEntry t p

/-! ### Lemmas about the association-list map -/

theorem alookup_aset_self {α : Type} (st : List (String × α)) (k : String) (v : α) :
    alookup (aset st k v) k = some v := by
  induction st with
  | nil => simp [aset, alookup]
  | cons p rest ih =>
    obtain ⟨k', w⟩ := p
    by_cases h : k' = k
    · subst h; simp [aset, alookup]
    · simp [aset, alookup, h, ih]

theorem alookup_mem {α : Type} {st : List (String × α)} {k : String} {v : α}
    (h : alookup st k = some v) : (k, v) ∈ st := by
  induction st with
  | nil => simp [alookup] at h
  | cons p rest ih =>
    obtain ⟨k', w⟩ := p
    by_cases hk : k' = k
    · subst hk
      simp [alookup] at h
      simp [h]
    · simp [alookup, hk] at h
      exact List.mem_cons_of_mem _ (ih h)

theorem mem_aset {α : Type} {st : List (String × α)} {k : String} {v : α} {p : String × α}
    (h : p ∈ aset st k v) : p = (k, v) ∨ p ∈ st := by
  induction st with
  | nil => simpa [aset] using h
  | cons q rest ih =>
    obtain ⟨k', w⟩ := q
    by_cases hk : k' = k
    · subst hk
      simp [aset] at h
      rcases h with h | h
      · exact Or.inl h
      · exact Or.inr (List.mem_cons_of_mem _ h)
    · simp [aset, hk] at h
      rcases h with h | h
      · exact Or.inr (by simp [h])
      · rcases ih h with h' | h'
        · exact Or.inl h'
        · exact Or.inr (List.mem_cons_of_mem _ h')

theorem mem_keys_aset {α : Type} {st : List (String × α)} {k : String} {v : α} {x : String}
    (h : x ∈ (aset st k v).map Prod.fst) : x = k ∨ x ∈ st.map Prod.fst := by
  simp only [List.mem_map] at h ⊢
  obtain ⟨p, hp, hx⟩ := h
  rcases mem_aset hp with h' | h'
  · left
    rw [← hx, h']
  · right
    exact ⟨p, h', hx⟩

theorem keysNodup_aset {α : Type} {st : List (String × α)} (k : String) (v : α)
    (h : keysNodup st) : keysNodup (aset st k v) := by
  induction st with
  | nil => simp [aset, keysNodup]
  | cons p rest ih =>
    obtain ⟨k', w⟩ := p
    simp only [keysNodup, List.map_cons, List.nodup_cons] at h
    obtain ⟨hnot, hrest⟩ := h
    by_cases hk : k' = k
    · subst hk
      rw [show aset ((k', w) :: rest) k' v = (k', v) :: rest by simp [aset]]
      simp only [keysNodup, List.map_cons, List.nodup_cons]
      exact ⟨hnot, hrest⟩
    · have ih' := ih hrest
      rw [show aset ((k', w) :: rest) k v = (k', w) :: aset rest k v by simp [aset, hk]]
      simp only [keysNodup, List.map_cons, List.nodup_cons]
      refine ⟨?_, ih'⟩
      intro hmem
      rcases mem_keys_aset hmem with h' | h'
      · exact hk h'
      · exact hnot h'

theorem countKey_cons_ne {α : Type} (p : String × α) (rest : List (String × α))
    (k : String) (h : ¬ p.1 = k) : countKey (p :: rest) k = countKey rest k := by
  simp [countKey, List.filter_cons, h]

theorem countKey_cons_eq {α : Type} (p : String × α) (rest : List (String × α))
    (k : String) (h : p.1 = k) : countKey (p :: rest) k = countKey rest k + 1 := by
  simp [countKey, List.filter_cons, h]

theorem countKey_eq_zero {α : Type} {st : List (String × α)} {k : String}
    (h : k ∉ st.map Prod.fst) : countKey st k = 0 := by
  induction st with
  | nil => rfl
  | cons p rest ih =>
    simp only [List.map_cons, List.mem_cons, not_or] at h
    obtain ⟨h1, h2⟩ := h
    rw [countKey_cons_ne p rest k (fun hh => h1 hh.symm)]
    exact ih h2

theorem countKey_aset {α : Type} {st : List (String × α)} (k : String) (v : α)
    (h : keysNodup st) : countKey (aset st k v) k = 1 := by
  induction st with
  | nil => simp [aset, countKey, List.filter_cons]
  | cons p rest ih =>
    obtain ⟨k', w⟩ := p
    simp only [keysNodup, List.map_cons, List.nodup_cons] at h
    obtain ⟨hnot, hrest⟩ := h
    by_cases hk : k' = k
    · subst hk
      rw [show aset ((k', w) :: rest) k' v = (k', v) :: rest by simp [aset]]
      rw [countKey_cons_eq (k', v) rest k' rfl, countKey_eq_zero hnot]
    · rw [show aset ((k', w) :: rest) k v = (k', w) :: aset rest k v by simp [aset, hk]]
      rw [countKey_cons_ne (k', w) (aset rest k v) k hk]
      exact ih hrest

/-! ### Lemmas about the Coalescing Scheduler -/

theorem filterMapComm {α β : Type} (f : α → β) (p : β → Bool) (l : List α) :
    (l.map f).filter p = (l.filter (fun a => p (f a))).map f := by
  induction l with
  | nil => rfl
  | cons a l ih =>
    by_cases h : p (f a) = true <;>
      simp [List.filter_cons, h, ih]

theorem lastStamp_append_single (msgs : List BatchMsg) (m : BatchMsg) :
    lastStamp (msgs ++ [m]) = m.timestamp := by
  simp [lastStamp, List.foldl_append]

theorem lastTime_cons (t : Nat) (e : AddEvent) (rest : List AddEvent) :
    lastTime t (e :: rest) = lastTime e.time rest := rfl

/-- Running the scheduler from a table holding a single live batch for
`key`, when every further event targets `key` and arrives within the
quiet period, extends that batch and produces exactly one flush,
containing the whole fragment sequence, at the final deadline. -/
theorem runScheduler_singleKey (key : String) (events : List AddEvent) :
    ∀ (msgs : List BatchMsg) (tprev : Nat),
      (∀ e ∈ events, e.key = key) → withinQuiet tprev events →
      runScheduler events [(key, (msgs, tprev + MESSAGE_BATCH_DELAY))] =
        ([⟨lastTime tprev events + MESSAGE_BATCH_DELAY, key,
           msgs ++ events.map AddEvent.toMsg⟩], []) := by
  induction events with
  | nil =>
    intro msgs tprev _ _
    simp [runScheduler, flushAll, lastTime]
  | cons e rest ih =>
    intro msgs tprev hkeys hq
    obtain ⟨⟨h1, h2⟩, hq'⟩ := hq
    have hkey : e.key = key := hkeys e (by simp)
    have hne : ¬ (tprev + MESSAGE_BATCH_DELAY ≤ e.time) := by omega
    have hfire : fireDue e.time [(key, (msgs, tprev + MESSAGE_BATCH_DELAY))] =
        ([], [(key, (msgs, tprev + MESSAGE_BATCH_DELAY))]) := by
      simp [fireDue, hne]
    have hadd : addMessageToBatch [(key, (msgs, tprev + MESSAGE_BATCH_DELAY))] e =
        [(key, (msgs ++ [e.toMsg], e.time + MESSAGE_BATCH_DELAY))] := by
      simp [addMessageToBatch, hkey, alookup, aset]
    have hrest := ih (msgs ++ [e.toMsg]) e.time
      (fun e' he' => hkeys e' (List.mem_cons_of_mem _ he')) hq'
    simp only [runScheduler, hfire, hadd, hrest, lastTime_cons]
    simp [List.append_assoc]

theorem combineEqSpec (l : List AddEvent) :
    combineBatchedMessages (l.map AddEvent.toMsg) = specCombinedText l := by
  have htext : (l.map AddEvent.toMsg).filter (fun m => m.type.isText) =
      (l.filter (fun e => e.msgType.isText)).map AddEvent.toMsg :=
    filterMapComm AddEvent.toMsg (fun m => m.type.isText) l
  have himg : (l.map AddEvent.toMsg).filter (fun m => m.type.isImage) =
      (l.filter (fun e => e.msgType.isImage)).map AddEvent.toMsg :=
    filterMapComm AddEvent.toMsg (fun m => m.type.isImage) l
  have hc : ((fun m : BatchMsg => m.content) ∘ AddEvent.toMsg) =
      fun e : AddEvent => e.content := rfl
  simp only [combineBatchedMessages, specCombinedText, htext, himg, List.map_map, hc]
  cases hil : l.filter (fun e => e.msgType.isImage) with
  | nil => simp
  | cons a as => simp

/-- **C1.** For every nonempty sequence of fragments added for the same
`(conversationId, senderAddress)` pair, each arriving within the quiet
period of its predecessor, the scheduler produces exactly one flush; it
carries all fragments in arrival order, and the text-handler flush
callback combines them into all text-kind contents in arrival order
joined by double newlines followed, when any image-derived fragment
exists, by a double newline and all image-derived contents in arrival
order joined by double newlines — not chronological interleaving. -/
theorem coalescing_single_flush_and_combine (cid sender : String) (e0 : AddEvent)
    (rest : List AddEvent)
    (hkeys : ∀ e ∈ e0 :: rest, e.conversationId = cid ∧ e.senderAddress = sender)
    (hq : withinQuiet e0.time rest) :
    runScheduler (e0 :: rest) [] =
      ([⟨lastTime e0.time rest + MESSAGE_BATCH_DELAY, batchKey cid sender,
         (e0 :: rest).map AddEvent.toMsg⟩], [])
    ∧ combineBatchedMessages ((e0 :: rest).map AddEvent.toMsg) =
        specCombinedText (e0 :: rest) := by
  constructor
  · have hkey0 : e0.key = batchKey cid sender := by
      obtain ⟨h1, h2⟩ := hkeys e0 (by simp)
      simp [AddEvent.key, h1, h2]
    have hfire : fireDue e0.time ([] : SchedState) = ([], []) := rfl
    have hadd : addMessageToBatch [] e0 =
        [(e0.key, ([e0.toMsg], e0.time + MESSAGE_BATCH_DELAY))] := by
      simp [addMessageToBatch, alookup, aset]
    have hrest := runScheduler_singleKey e0.key rest [e0.toMsg] e0.time
      (fun e' he' => by
        obtain ⟨h1, h2⟩ := hkeys e' (List.mem_cons_of_mem _ he')
        obtain ⟨g1, g2⟩ := hkeys e0 (by simp)
        simp [AddEvent.key, h1, h2, g1, g2])
      hq
    rw [hkey0] at hadd hrest
    simp only [runScheduler, hfire, hadd, hrest]
    simp
  · exact combineEqSpec (e0 :: rest)

/-- Witness for C1 at a concrete two-fragment sequence (a text fragment
followed 300 ms later by an image-derived one). -/
theorem coalescing_single_flush_and_combine_witness :
    runScheduler
        [⟨0, "conv1", "0xabc", "m1", MsgType.text, "hello"⟩,
         ⟨300, "conv1", "0xabc", "m2", MsgType.image, "User shared an image"⟩] [] =
      ([⟨lastTime (0 : Nat) [⟨300, "conv1", "0xabc", "m2", MsgType.image, "User shared an image"⟩]
           + MESSAGE_BATCH_DELAY, batchKey "conv1" "0xabc",
         ([⟨0, "conv1", "0xabc", "m1", MsgType.text, "hello"⟩,
           ⟨300, "conv1", "0xabc", "m2", MsgType.image, "User shared an image"⟩].map AddEvent.toMsg)⟩], [])
    ∧ combineBatchedMessages
        ([⟨0, "conv1", "0xabc", "m1", MsgType.text, "hello"⟩,
          ⟨300, "conv1", "0xabc", "m2", MsgType.image, "User shared an image"⟩].map AddEvent.toMsg) =
        specCombinedText
          [⟨0, "conv1", "0xabc", "m1", MsgType.text, "hello"⟩,
           ⟨300, "conv1", "0xabc", "m2", MsgType.image, "User shared an image"⟩] :=
  coalescing_single_flush_and_combine "conv1" "0xabc"
    ⟨0, "conv1", "0xabc", "m1", MsgType.text, "hello"⟩
    [⟨300, "conv1", "0xabc", "m2", MsgType.image, "User shared an image"⟩]
    (by decide) (by decide)

/-- **C10.** The batch key is the dash-joined concatenation of
`conversationId` and `senderAddress`, which is not injective: the
distinct identities `("a-b", "c")` and `("a", "b-c")` compute the same
key, so fragments added under the two identities accumulate in one
Pending Batch and are flushed together as one combined turn. -/
theorem batchKey_collision_single_batch :
    batchKey "a-b" "c" = batchKey "a" "b-c"
    ∧ ("a-b", "c") ≠ (("a", "b-c") : String × String)
    ∧ runScheduler
        [⟨0, "a-b", "c", "m1", MsgType.text, "first"⟩,
         ⟨500, "a", "b-c", "m2", MsgType.text, "second"⟩] [] =
      ([⟨1500, "a-b-c",
         [⟨"m1", MsgType.text, "first", 0⟩,
          ⟨"m2", MsgType.text, "second", 500⟩]⟩], []) := by
  refine ⟨by decide, by decide, by decide⟩

theorem fireDue_cons (t : Nat) (k : String) (msgs : List BatchMsg) (d : Nat)
    (rest : SchedState) :
    fireDue t ((k, (msgs, d)) :: rest) =
      if d ≤ t then (⟨d, k, msgs⟩ :: (fireDue t rest).1, (fireDue t rest).2)
      else ((fireDue t rest).1, (k, (msgs, d)) :: (fireDue t rest).2) := by
  rcases hfd : fireDue t rest with ⟨fl, st'⟩
  simp [fireDue, hfd]

theorem runScheduler_cons (e : AddEvent) (rest : List AddEvent) (st : SchedState) :
    runScheduler (e :: rest) st =
      ((fireDue e.time st).1 ++
         (runScheduler rest (addMessageToBatch (fireDue e.time st).2 e)).1,
       (runScheduler rest (addMessageToBatch (fireDue e.time st).2 e)).2) := by
  rcases h1 : fireDue e.time st with ⟨fl1, st1⟩
  rcases h2 : runScheduler rest (addMessageToBatch st1 e) with ⟨fl2, st2⟩
  simp [runScheduler, h1, h2]

theorem mem_fireDue_fst {t : Nat} {st : SchedState} {f : FlushEvent}
    (h : f ∈ (fireDue t st).1) : (f.key, (f.messages, f.time)) ∈ st := by
  induction st with
  | nil => simp [fireDue] at h
  | cons p rest ih =>
    obtain ⟨k, msgs, d⟩ := p
    rw [fireDue_cons] at h
    by_cases hd : d ≤ t
    · rw [if_pos hd] at h
      simp only [List.mem_cons] at h
      rcases h with h | h
      · rw [h]; simp
      · exact List.mem_cons_of_mem _ (ih h)
    · rw [if_neg hd] at h
      exact List.mem_cons_of_mem _ (ih h)

theorem mem_fireDue_snd {t : Nat} {st : SchedState} {p : String × (List BatchMsg × Nat)}
    (h : p ∈ (fireDue t st).2) : p ∈ st := by
  induction st with
  | nil => simp [fireDue] at h
  | cons q rest ih =>
    obtain ⟨k, msgs, d⟩ := q
    rw [fireDue_cons] at h
    by_cases hd : d ≤ t
    · rw [if_pos hd] at h
      exact List.mem_cons_of_mem _ (ih h)
    · rw [if_neg hd] at h
      simp only [List.mem_cons] at h
      rcases h with h | h
      · rw [h]; simp
      · exact List.mem_cons_of_mem _ (ih h)

theorem mem_flushAll {st : SchedState} {f : FlushEvent}
    (h : f ∈ flushAll st) : (f.key, (f.messages, f.time)) ∈ st := by
  induction st with
  | nil => simp [flushAll] at h
  | cons p rest ih =>
    obtain ⟨k, msgs, d⟩ := p
    simp only [flushAll, List.mem_cons] at h
    rcases h with h | h
    · rw [h]; simp
    · exact List.mem_cons_of_mem _ (ih h)

theorem goodState_mono {t t' : Nat} {st : SchedState}
    (h : goodState t st) (ht : t ≤ t') : goodState t' st := by
  intro p hp
  obtain ⟨a, b, c, d⟩ := h p hp
  exact ⟨a, b, c, le_trans d ht⟩

theorem goodEntry_flushOk {t : Nat} {p : String × (List BatchMsg × Nat)}
    (h : goodEntry t p) : flushOk ⟨p.2.2, p.1, p.2.1⟩ := by
  obtain ⟨h1, h2, h3, _⟩ := h
  refine ⟨h1, h2, fun m hm => ?_⟩
  have := h3 m hm
  simp only [h2]
  omega

theorem fireDue_flushOk {t u : Nat} {st : SchedState}
    (h : goodState t st) : ∀ f ∈ (fireDue u st).1, flushOk f := by
  intro f hf
  have hg := h _ (mem_fireDue_fst hf)
  exact goodEntry_flushOk hg

theorem flushAll_flushOk {t : Nat} {st : SchedState}
    (h : goodState t st) : ∀ f ∈ flushAll st, flushOk f := by
  intro f hf
  have hg := h _ (mem_flushAll hf)
  exact goodEntry_flushOk hg

theorem addMessageToBatch_good {t : Nat} {st : SchedState} {e : AddEvent}
    (h : goodState t st) (ht : t ≤ e.time) :
    goodState e.time (addMessageToBatch st e) := by
  intro p hp
  have hmono := goodState_mono h ht
  cases halk : alookup st e.key with
  | none =>
    rw [show addMessageToBatch st e =
        aset st e.key ([e.toMsg], e.time + MESSAGE_BATCH_DELAY) by
      simp [addMessageToBatch, halk]] at hp
    rcases mem_aset hp with h' | h'
    · rw [h']
      refine ⟨by simp, by simp [lastStamp, AddEvent.toMsg], ?_, by simp [lastStamp, AddEvent.toMsg]⟩
      intro m hm
      simp only [List.mem_singleton] at hm
      simp [hm, lastStamp, AddEvent.toMsg]
    · exact hmono p h'
  | some q =>
    obtain ⟨msgs, d⟩ := q
    have hent := h _ (alookup_mem halk)
    obtain ⟨_, _, h3, h4⟩ := hent
    rw [show addMessageToBatch st e =
        aset st e.key (msgs ++ [e.toMsg], e.time + MESSAGE_BATCH_DELAY) by
      simp [addMessageToBatch, halk]] at hp
    rcases mem_aset hp with h' | h'
    · rw [h']
      refine ⟨by simp, by simp [lastStamp_append_single, AddEvent.toMsg], ?_,
        by simp [lastStamp_append_single, AddEvent.toMsg]⟩
      intro m hm
      rw [lastStamp_append_single]
      simp only [List.mem_append, List.mem_singleton] at hm
      rcases hm with hm | hm
      · have := h3 m hm
        simp only [AddEvent.toMsg]
        omega
      · simp [hm]
    · exact hmono p h'

theorem runScheduler_flushOk :
    ∀ (events : List AddEvent) (st : SchedState) (t : Nat),
      goodState t st → sortedFrom t events →
      ∀ f ∈ (runScheduler events st).1, flushOk f := by
  intro events
  induction events with
  | nil =>
    intro st t hg _ f hf
    simp only [runScheduler] at hf
    exact flushAll_flushOk hg f hf
  | cons e rest ih =>
    intro st t hg hs f hf
    obtain ⟨hte, hs'⟩ := hs
    rw [runScheduler_cons] at hf
    simp only [List.mem_append] at hf
    rcases hf with hf | hf
    · exact fireDue_flushOk hg f hf
    · have hg1 : goodState t (fireDue e.time st).2 := fun p hp => hg p (mem_fireDue_snd hp)
      have hg2 := addMessageToBatch_good hg1 hte
      exact ih _ e.time hg2 hs' f hf

/-- **C2.** Debounce, not fixed delay: over any time-ordered sequence of
adds, every flush the scheduler produces fires exactly
`MESSAGE_BATCH_DELAY` after the last fragment added for its key — hence
never before the quiet period has elapsed from every fragment of the
batch; and adding a fragment for a key with a live Pending Batch cancels
its timer, appends to the same sequence, and arms a fresh timer
`MESSAGE_BATCH_DELAY` from the new fragment's arrival. -/
theorem debounce_from_last_fragment :
    (∀ (events : List AddEvent), sortedFrom 0 events →
      ∀ f ∈ (runScheduler events []).1,
        f.messages ≠ [] ∧
          f.time = lastStamp f.messages + MESSAGE_BATCH_DELAY ∧
          ∀ m ∈ f.messages, m.timestamp + MESSAGE_BATCH_DELAY ≤ f.time)
    ∧ (∀ (st : SchedState) (e : AddEvent) (msgs : List BatchMsg) (d : Nat),
        alookup st e.key = some (msgs, d) →
        alookup (addMessageToBatch st e) e.key =
          some (msgs ++ [e.toMsg], e.time + MESSAGE_BATCH_DELAY)) := by
  constructor
  · intro events hs f hf
    have hg : goodState 0 ([] : SchedState) := fun p hp => by simp at hp
    exact runScheduler_flushOk events [] 0 hg hs f hf
  · intro st e msgs d h
    rw [show addMessageToBatch st e =
        aset st e.key (msgs ++ [e.toMsg], e.time + MESSAGE_BATCH_DELAY) by
      simp [addMessageToBatch, h]]
    exact alookup_aset_self st e.key _

/-- Witness for C2: a concrete three-add run (two keys) and a concrete
cancel-and-replace step. -/
theorem debounce_from_last_fragment_witness :
    (∀ f ∈ (runScheduler
        [⟨0, "c1", "s1", "m1", MsgType.text, "a"⟩,
         ⟨400, "c1", "s1", "m2", MsgType.text, "b"⟩,
         ⟨600, "c2", "s2", "m3", MsgType.image, "img"⟩] []).1,
      f.messages ≠ [] ∧
        f.time = lastStamp f.messages + MESSAGE_BATCH_DELAY ∧
        ∀ m ∈ f.messages, m.timestamp + MESSAGE_BATCH_DELAY ≤ f.time)
    ∧ alookup
        (addMessageToBatch
          [("c1-s1", ([⟨"m1", MsgType.text, "a", 0⟩], 1000))]
          ⟨400, "c1", "s1", "m2", MsgType.text, "b"⟩)
        (AddEvent.key ⟨400, "c1", "s1", "m2", MsgType.text, "b"⟩) =
      some ([⟨"m1", MsgType.text, "a", 0⟩] ++
              [AddEvent.toMsg ⟨400, "c1", "s1", "m2", MsgType.text, "b"⟩],
            400 + MESSAGE_BATCH_DELAY) :=
  ⟨debounce_from_last_fragment.1 _ (by decide),
   debounce_from_last_fragment.2 _ _ _ 1000 (by decide)⟩

/-! ### Lemmas about the Deduplication Ledger -/

theorem setAdd_not_mem {s : List String} {id : String} (h : id ∉ s) :
    setAdd s id = s ++ [id] := by
  simp [setAdd, h]

theorem c4id_inj : Function.Injective c4id := by
  intro a b h
  have hd : List.replicate a 'a' = List.replicate b 'a' := congrArg String.data h
  have := congrArg List.length hd
  simpa using this

theorem foldl_markProcessedReply (ids : List String) :
    ∀ s : List String, ids.Nodup → (∀ i ∈ ids, i ∉ s) →
      ids.foldl markProcessedReply s = s ++ ids := by
  induction ids with
  | nil => intro s _ _; simp
  | cons i rest ih =>
    intro s hnd hdisj
    obtain ⟨hhead, hrest⟩ := List.nodup_cons.mp hnd
    simp only [List.foldl_cons]
    rw [show markProcessedReply s i = s ++ [i] from setAdd_not_mem (hdisj i (by simp))]
    rw [ih (s ++ [i]) hrest ?_]
    · simp
    · intro j hj
      simp only [List.mem_append, List.mem_singleton, not_or]
      refine ⟨hdisj j (List.mem_cons_of_mem _ hj), ?_⟩
      intro hji
      exact hhead (hji ▸ hj)

theorem ledgerRange_eq (n : Nat) :
    ((List.range n).map c4id).foldl markProcessedReply [] = (List.range n).map c4id := by
  have hnd : ((List.range n).map c4id).Nodup :=
    (List.nodup_range n).map c4id_inj
  have := foldl_markProcessedReply ((List.range n).map c4id) [] hnd (by simp)
  simpa using this

theorem c4id_not_mem_range (n : Nat) : c4id n ∉ (List.range n).map c4id := by
  intro h
  simp only [List.mem_map, List.mem_range] at h
  obtain ⟨m, hm, he⟩ := h
  have := c4id_inj he
  omega

/-- **C4 counterexample.** The reply-handler marking path does not prune:
starting from a ledger of 1001 distinct identifiers built by
reply-handler insertions alone, marking one more identifier leaves 1002
entries — the size exceeds 1000 yet the ledger was not pruned to 500 and
keeps growing without bound. -/
theorem dedup_reply_path_never_prunes :
    ledger1001.length = 1001
    ∧ (markProcessedReply ledger1001 (c4id 1001)).length = 1002
    ∧ 1000 < (markProcessedReply ledger1001 (c4id 1001)).length
    ∧ (markProcessedReply ledger1001 (c4id 1001)).length ≠ 500 := by
  have he : ledger1001 = (List.range 1001).map c4id := ledgerRange_eq 1001
  have hlen : ledger1001.length = 1001 := by
    rw [he, List.length_map, List.length_range]
  have hnm : c4id 1001 ∉ ledger1001 := by
    rw [he]; exact c4id_not_mem_range 1001
  have h : markProcessedReply ledger1001 (c4id 1001) = ledger1001 ++ [c4id 1001] :=
    setAdd_not_mem hnm
  have h2 : (markProcessedReply ledger1001 (c4id 1001)).length = 1002 := by
    rw [h, List.length_append, hlen, List.length_singleton]
  refine ⟨hlen, h2, ?_, ?_⟩
  · rw [h2]; omega
  · rw [h2]; omega

/-- **C4 (amended).** Only the text-handler marking path prunes: there,
whenever the ledger exceeds 1000 entries after insertion, it is reduced
to exactly the 500 most recently inserted identifiers (a suffix: oldest
dropped, newest kept, insertion order preserved), so that path always
leaves at most 1000 entries; the reply-handler marking path inserts
without pruning. -/
theorem dedup_prune_text_path_only (s : List String) (id : String) :
    (markProcessedText s id).length ≤ 1000
    ∧ (1000 < (setAdd s id).length →
        markProcessedText s id = (setAdd s id).drop ((setAdd s id).length - 500)
        ∧ (markProcessedText s id).length = 500)
    ∧ (id ∉ s → markProcessedReply s id = s ++ [id]) := by
  refine ⟨?_, ?_, fun h => setAdd_not_mem h⟩
  · by_cases h : (setAdd s id).length > 1000
    · rw [show markProcessedText s id = (setAdd s id).drop ((setAdd s id).length - 500) by
        simp [markProcessedText, h]]
      rw [List.length_drop]
      omega
    · rw [show markProcessedText s id = setAdd s id by simp [markProcessedText, h]]
      omega
  · intro h
    have he : markProcessedText s id = (setAdd s id).drop ((setAdd s id).length - 500) := by
      simp [markProcessedText, h]
    refine ⟨he, ?_⟩
    rw [he, List.length_drop]
    omega

/-- Witness for the amended C4 at a concrete 1000-entry ledger and a
fresh identifier. -/
theorem dedup_prune_text_path_only_witness :
    (markProcessedText ledger1000 (c4id 1000)).length ≤ 1000
    ∧ markProcessedText ledger1000 (c4id 1000) =
        (setAdd ledger1000 (c4id 1000)).drop ((setAdd ledger1000 (c4id 1000)).length - 500)
    ∧ (markProcessedText ledger1000 (c4id 1000)).length = 500
    ∧ markProcessedReply ledger1000 (c4id 1000) = ledger1000 ++ [c4id 1000] := by
  have he : ledger1000 = (List.range 1000).map c4id := ledgerRange_eq 1000
  have hnm : c4id 1000 ∉ ledger1000 := by rw [he]; exact c4id_not_mem_range 1000
  obtain ⟨h1, h2, h3⟩ := dedup_prune_text_path_only ledger1000 (c4id 1000)
  have hlen : 1000 < (setAdd ledger1000 (c4id 1000)).length := by
    rw [setAdd_not_mem hnm, List.length_append, he, List.length_map, List.length_range,
      List.length_singleton]
    omega
  obtain ⟨h2a, h2b⟩ := h2 hlen
  exact ⟨h1, h2a, h2b, h3 hnm⟩

/-! ### Lemmas about the Staleness Detector -/

theorem checkMessageArray_fresh {st : HealthState} {c : String} (l : List String)
    (h : alookup st c = none) :
    checkMessageArray st c l =
      (false, aset st c ⟨fingerprintOf l, 1, sortStrings l⟩) := by
  simp [checkMessageArray, h, fingerprintOf]

theorem checkMessageArray_same {st : HealthState} {c : String} {fp : String}
    {k : Nat} {ids : List String} (l : List String)
    (h : alookup st c = some ⟨fp, k, ids⟩) (hh : fp = fingerprintOf l) :
    checkMessageArray st c l =
      (decide (3 ≤ k + 1), aset st c ⟨fp, k + 1, ids⟩) := by
  rw [fingerprintOf] at hh
  simp [checkMessageArray, h, hh]

theorem checkMessageArray_diff {st : HealthState} {c : String} {fp : String}
    {k : Nat} {ids : List String} (l : List String)
    (h : alookup st c = some ⟨fp, k, ids⟩) (hh : ¬ fp = fingerprintOf l) :
    checkMessageArray st c l =
      (false, aset st c ⟨fingerprintOf l, 1, sortStrings l⟩) := by
  rw [fingerprintOf] at hh
  simp [checkMessageArray, h, hh, fingerprintOf]

theorem observeSeq_replicate_same (c : String) (l : List String) :
    ∀ (n : Nat) (st : HealthState) (fp : String) (k : Nat) (ids : List String),
      alookup st c = some ⟨fp, k, ids⟩ → fp = fingerprintOf l →
      observeSeq st c (List.replicate n l) =
        (List.range n).map (fun i => decide (3 ≤ k + i + 1)) := by
  intro n
  induction n with
  | zero => intro st fp k ids _ _; simp [observeSeq]
  | succ m ih =>
    intro st fp k ids h hh
    rw [List.replicate_succ]
    simp only [observeSeq]
    rw [checkMessageArray_same l h hh]
    have hr' : alookup (aset st c ⟨fp, k + 1, ids⟩) c = some ⟨fp, k + 1, ids⟩ :=
      alookup_aset_self st c _
    rw [ih _ fp (k + 1) ids hr' hh]
    rw [List.range_succ_eq_map, List.map_cons, List.map_map]
    simp only [List.cons.injEq]
    refine ⟨trivial, ?_⟩
    apply List.map_congr_left
    intro i _
    show decide (3 ≤ k + 1 + i + 1) = decide (3 ≤ k + (i + 1) + 1)
    exact decide_eq_decide.mpr (by omega)

/-- **C3.** From a fresh state, `checkMessageArray` returns false on the
first observation, false on the second identical one, and true on the
third and all later identical observations (`repeatCount ≥ 3`); a
differing fingerprint on the third call instead resets the count and
returns false. -/
theorem staleness_false_false_true (st : HealthState) (c : String)
    (l l' : List String) (hfresh : alookup st c = none)
    (hdiff : fingerprintOf l' ≠ fingerprintOf l) :
    observeSeq st c [l, l, l] = [false, false, true]
    ∧ observeSeq st c [l, l, l'] = [false, false, false]
    ∧ ∀ n : Nat, observeSeq st c (List.replicate n l) =
        (List.range n).map (fun i => decide (3 ≤ i + 1)) := by
  have h1 : alookup (aset st c ⟨fingerprintOf l, 1, sortStrings l⟩) c =
      some ⟨fingerprintOf l, 1, sortStrings l⟩ := alookup_aset_self st c _
  have hrep : ∀ n : Nat, observeSeq st c (List.replicate n l) =
      (List.range n).map (fun i => decide (3 ≤ i + 1)) := by
    intro n
    cases n with
    | zero => simp [observeSeq]
    | succ m =>
      rw [List.replicate_succ]
      simp only [observeSeq]
      rw [checkMessageArray_fresh l hfresh]
      rw [observeSeq_replicate_same c l m _ (fingerprintOf l) 1 (sortStrings l) h1 rfl]
      rw [List.range_succ_eq_map, List.map_cons, List.map_map]
      simp only [List.cons.injEq]
      refine ⟨by decide, ?_⟩
      apply List.map_congr_left
      intro i _
      show decide (3 ≤ 1 + i + 1) = decide (3 ≤ (i + 1) + 1)
      exact decide_eq_decide.mpr (by omega)
  refine ⟨?_, ?_, hrep⟩
  · have := hrep 3
    simpa using this
  · simp only [observeSeq]
    rw [checkMessageArray_fresh l hfresh]
    rw [checkMessageArray_same l h1 rfl]
    have h2 : alookup (aset (aset st c ⟨fingerprintOf l, 1, sortStrings l⟩) c
        ⟨fingerprintOf l, 1 + 1, sortStrings l⟩) c =
        some ⟨fingerprintOf l, 1 + 1, sortStrings l⟩ := alookup_aset_self _ c _
    rw [checkMessageArray_diff l' h2 (fun hx => hdiff hx.symm)]
    simp

/-- Witness for C3 at a concrete conversation with message-id lists
`["a"]` and `["b"]`. -/
theorem staleness_false_false_true_witness :
    observeSeq [] "conv" [["a"], ["a"], ["a"]] = [false, false, true]
    ∧ observeSeq [] "conv" [["a"], ["a"], ["b"]] = [false, false, false]
    ∧ observeSeq [] "conv" (List.replicate 5 ["a"]) =
        (List.range 5).map (fun i => decide (3 ≤ i + 1)) := by
  obtain ⟨h1, h2, h3⟩ :=
    staleness_false_false_true [] "conv" ["a"] ["b"] rfl (by decide)
  exact ⟨h1, h2, h3 5⟩

/-! ### Backend wrapper and greeting flow -/

theorem processMessage_failure_apology (o : HttpOutcome)
    (h : o.isFailure = true) : processMessage o = techDifficulties := by
  cases o with
  | ok resp =>
    simp only [HttpOutcome.isFailure, Bool.not_eq_true'] at h
    simp [processMessage, h]
  | networkError => rfl
  | timeout => rfl

/-- **C9.** `processMessage` is a total function of the HTTP outcome
(the promise never rejects) and returns the fixed apology string on
every failure — network error, timeout, or a response body whose
success flag is false; consequently a caller's backend-failure catch
branch is unreachable through this call: with sends succeeding, the
greeting flow sends exactly the wrapper's return value and never its
own fallback. -/
theorem processMessage_never_rejects (o : HttpOutcome) :
    (o.isFailure = true →
      processMessage o =
        "Sorry, I'm experiencing technical difficulties. Please try again in a moment.")
    ∧ ∀ fbOk : Bool, (greetingFlow o true fbOk).sentTexts = [processMessage o] := by
  constructor
  · intro h
    rw [processMessage_failure_apology o h]
    rfl
  · intro fbOk
    simp [greetingFlow]

/-- Witness for C9 at the timeout outcome. -/
theorem processMessage_never_rejects_witness :
    processMessage HttpOutcome.timeout =
      "Sorry, I'm experiencing technical difficulties. Please try again in a moment."
    ∧ (greetingFlow HttpOutcome.timeout true true).sentTexts =
        [processMessage HttpOutcome.timeout] :=
  ⟨(processMessage_never_rejects HttpOutcome.timeout).1 rfl,
   (processMessage_never_rejects HttpOutcome.timeout).2 true⟩

/-- **C5 counterexample.** When the backend call fails, the greeting
actually sent is the wrapper's technical-difficulties apology, not the
fixed fallback greeting: `processMessage` absorbs the failure, so the
greeting block's catch — and with it the fallback greeting — is not
reached by a backend failure. -/
theorem greeting_backend_failure_sends_apology :
    (greetingFlow HttpOutcome.networkError true true).sentTexts = [techDifficulties]
    ∧ techDifficulties ≠ fallbackGreeting
    ∧ (greetingFlow HttpOutcome.networkError true true).sentTexts ≠ [fallbackGreeting]
    ∧ (greetingFlow HttpOutcome.networkError true true).markedGreeted = true
    ∧ (greetingFlow HttpOutcome.networkError true true).processedFurther = false := by
  refine ⟨rfl, by decide, by decide, rfl, rfl⟩

/-- **C5 (amended).** In the group greeting flow the text sent is the
backend wrapper's return value — the backend's response on success and
the fixed technical-difficulties apology on backend failure; the fixed
fallback greeting is sent only when sending the first greeting itself
throws. In every case the conversation is then marked greeted and the
triggering message is not processed further. -/
theorem greeting_flow_behavior (backend : HttpOutcome)
    (firstSendOk fallbackSendOk : Bool) :
    (greetingFlow backend firstSendOk fallbackSendOk).markedGreeted = true
    ∧ (greetingFlow backend firstSendOk fallbackSendOk).processedFurther = false
    ∧ (firstSendOk = true →
        (greetingFlow backend firstSendOk fallbackSendOk).sentTexts =
          [processMessage backend])
    ∧ (backend.isFailure = true → firstSendOk = true →
        (greetingFlow backend firstSendOk fallbackSendOk).sentTexts =
          [techDifficulties])
    ∧ (firstSendOk = false → fallbackSendOk = true →
        (greetingFlow backend firstSendOk fallbackSendOk).sentTexts =
          [fallbackGreeting]) := by
  refine ⟨rfl, rfl, ?_, ?_, ?_⟩
  · intro h
    subst h
    simp [greetingFlow]
  · intro hf h
    subst h
    have := processMessage_failure_apology backend hf
    simp [greetingFlow, this]
  · intro h1 h2
    subst h1
    subst h2
    simp [greetingFlow]

/-- Witness for the amended C5: a successful backend call with a working
send, and a failing first send with a working fallback send. -/
theorem greeting_flow_behavior_witness :
    (greetingFlow (HttpOutcome.ok ⟨true, some ⟨"Hi there", "ag", "w", none⟩, none⟩)
        true true).sentTexts =
      [processMessage (HttpOutcome.ok ⟨true, some ⟨"Hi there", "ag", "w", none⟩, none⟩)]
    ∧ (greetingFlow HttpOutcome.timeout false true).sentTexts = [fallbackGreeting] :=
  ⟨(greeting_flow_behavior (HttpOutcome.ok ⟨true, some ⟨"Hi there", "ag", "w", none⟩, none⟩)
      true true).2.2.1 rfl,
   (greeting_flow_behavior HttpOutcome.timeout false true).2.2.2.2 rfl rfl⟩

/-! ### Conversation Mapping Store lemmas -/

/-- **C6.** Upserting the same `threadId` twice with two conversation
ids leaves exactly one stored mapping for that `threadId`: it carries
the later `conversationId` and, the clock having advanced between the
calls, a strictly newer `lastActivity` than the mapping stored after the
first upsert. -/
theorem mapping_upsert_latest_wins (st : MappingStore) (hnd : keysNodup st)
    (t1 t2 : Int) (ht : t1 < t2) (tid c1 c2 w1 w2 : String)
    (a1 a2 : Option String) :
    alookup (addMapping st t1 tid c1 w1 a1) tid = some ⟨tid, c1, w1, t1, a1⟩
    ∧ alookup (addMapping (addMapping st t1 tid c1 w1 a1) t2 tid c2 w2 a2) tid =
        some ⟨tid, c2, w2, t2, a2⟩
    ∧ countKey (addMapping (addMapping st t1 tid c1 w1 a1) t2 tid c2 w2 a2) tid = 1
    ∧ (⟨tid, c1, w1, t1, a1⟩ : XMTPConversationMapping).lastActivity <
        (⟨tid, c2, w2, t2, a2⟩ : XMTPConversationMapping).lastActivity := by
  refine ⟨alookup_aset_self st tid _, alookup_aset_self _ tid _, ?_, ht⟩
  exact countKey_aset tid _ (keysNodup_aset tid _ hnd)

/-- Witness for C6 at a concrete empty store and clock values 0 < 1. -/
theorem mapping_upsert_latest_wins_witness :
    alookup (addMapping [] 0 "t1" "cA" "w" none) "t1" =
      some ⟨"t1", "cA", "w", 0, none⟩
    ∧ alookup (addMapping (addMapping [] 0 "t1" "cA" "w" none) 1 "t1" "cB" "w" none) "t1" =
        some ⟨"t1", "cB", "w", 1, none⟩
    ∧ countKey (addMapping (addMapping [] 0 "t1" "cA" "w" none) 1 "t1" "cB" "w" none) "t1" = 1
    ∧ (⟨"t1", "cA", "w", 0, none⟩ : XMTPConversationMapping).lastActivity <
        (⟨"t1", "cB", "w", 1, none⟩ : XMTPConversationMapping).lastActivity :=
  mapping_upsert_latest_wins [] (by simp [keysNodup]) 0 1 (by norm_num)
    "t1" "cA" "cB" "w" "w" none none

theorem cleanupOldMappings_cons (tid : String) (m : XMTPConversationMapping)
    (rest : MappingStore) (now h : Int) :
    cleanupOldMappings ((tid, m) :: rest) now h =
      if now - m.lastActivity > h * 60 * 60 * 1000 then
        ((cleanupOldMappings rest now h).1, (cleanupOldMappings rest now h).2 + 1)
      else
        ((tid, m) :: (cleanupOldMappings rest now h).1, (cleanupOldMappings rest now h).2) := by
  rcases hr : cleanupOldMappings rest now h with ⟨st', n⟩
  simp [cleanupOldMappings, hr]

theorem cleanupOldMappings_filter (now h : Int) (st : MappingStore) :
    (cleanupOldMappings st now h).1 =
      st.filter (fun p => decide (now - p.2.lastActivity ≤ h * 60 * 60 * 1000))
    ∧ (cleanupOldMappings st now h).2 =
      (st.filter (fun p => decide (now - p.2.lastActivity > h * 60 * 60 * 1000))).length := by
  induction st with
  | nil => exact ⟨rfl, rfl⟩
  | cons p rest ih =>
    obtain ⟨tid, m⟩ := p
    obtain ⟨ih1, ih2⟩ := ih
    rw [cleanupOldMappings_cons]
    by_cases hc : now - m.lastActivity > h * 60 * 60 * 1000
    · rw [if_pos hc]
      have hkeep : decide (now - m.lastActivity ≤ h * 60 * 60 * 1000) = false := by
        simpa using not_le.mpr hc
      have hrem : decide (now - m.lastActivity > h * 60 * 60 * 1000) = true := by
        simpa using hc
      refine ⟨?_, ?_⟩
      · show (cleanupOldMappings rest now h).1 =
          List.filter (fun p => decide (now - p.2.lastActivity ≤ h * 60 * 60 * 1000))
            ((tid, m) :: rest)
        rw [List.filter_cons]
        simp only [hkeep, Bool.false_eq_true, if_false]
        exact ih1
      · show (cleanupOldMappings rest now h).2 + 1 =
          (List.filter (fun p => decide (now - p.2.lastActivity > h * 60 * 60 * 1000))
            ((tid, m) :: rest)).length
        rw [List.filter_cons]
        simp only [hrem, if_true, List.length_cons]
        omega
    · rw [if_neg hc]
      have hkeep : decide (now - m.lastActivity ≤ h * 60 * 60 * 1000) = true := by
        simpa using not_lt.mp hc
      have hrem : decide (now - m.lastActivity > h * 60 * 60 * 1000) = false := by
        simpa using hc
      refine ⟨?_, ?_⟩
      · show (tid, m) :: (cleanupOldMappings rest now h).1 =
          List.filter (fun p => decide (now - p.2.lastActivity ≤ h * 60 * 60 * 1000))
            ((tid, m) :: rest)
        rw [List.filter_cons]
        simp only [hkeep, if_true]
        rw [ih1]
      · show (cleanupOldMappings rest now h).2 =
          (List.filter (fun p => decide (now - p.2.lastActivity > h * 60 * 60 * 1000))
            ((tid, m) :: rest)).length
        rw [List.filter_cons]
        simp only [hrem, Bool.false_eq_true, if_false]
        exact ih2

/-- **C7.** `cleanupOldMappings` keeps exactly the mappings whose
`lastActivity` does not predate `now` minus `maxAgeHours` (in
milliseconds) and returns the number removed; in particular a mapping
with `lastActivity = now - (h+1)` hours is removed while one with
`lastActivity = now - (h-1)` hours is kept unchanged. -/
theorem cleanup_removes_exactly_older (st : MappingStore) (now h : Int) :
    (cleanupOldMappings st now h).1 =
      st.filter (fun p => decide (now - p.2.lastActivity ≤ h * 60 * 60 * 1000))
    ∧ (cleanupOldMappings st now h).2 =
      (st.filter (fun p => decide (now - p.2.lastActivity > h * 60 * 60 * 1000))).length
    ∧ (∀ (tid : String) (m : XMTPConversationMapping),
        m.lastActivity = now - (h + 1) * (60 * 60 * 1000) →
        (tid, m) ∉ (cleanupOldMappings st now h).1)
    ∧ (∀ (tid : String) (m : XMTPConversationMapping), (tid, m) ∈ st →
        m.lastActivity = now - (h - 1) * (60 * 60 * 1000) →
        (tid, m) ∈ (cleanupOldMappings st now h).1) := by
  obtain ⟨h1, h2⟩ := cleanupOldMappings_filter now h st
  refine ⟨h1, h2, ?_, ?_⟩
  · intro tid m hla hmem
    rw [h1] at hmem
    have hp := (List.mem_filter.mp hmem).2
    simp only [decide_eq_true_eq] at hp
    rw [hla] at hp
    have he : (h + 1) * (60 * 60 * 1000) = h * 60 * 60 * 1000 + 3600000 := by ring
    omega
  · intro tid m hmem hla
    rw [h1]
    refine List.mem_filter.mpr ⟨hmem, ?_⟩
    simp only [decide_eq_true_eq]
    rw [hla]
    have he : (h - 1) * (60 * 60 * 1000) = h * 60 * 60 * 1000 - 3600000 := by ring
    omega

/-- Witness for C7: a two-mapping store at `now = 0`, `h = 24`; the
25-hour-old mapping is removed, the 23-hour-old one is kept. -/
theorem cleanup_removes_exactly_older_witness :
    ("x", (⟨"x", "c", "w", -90000000, none⟩ : XMTPConversationMapping)) ∉
      (cleanupOldMappings
        [("x", ⟨"x", "c", "w", -90000000, none⟩),
         ("y", ⟨"y", "c", "w", -82800000, none⟩)] 0 24).1
    ∧ ("y", (⟨"y", "c", "w", -82800000, none⟩ : XMTPConversationMapping)) ∈
      (cleanupOldMappings
        [("x", ⟨"x", "c", "w", -90000000, none⟩),
         ("y", ⟨"y", "c", "w", -82800000, none⟩)] 0 24).1 := by
  obtain ⟨-, -, h3, h4⟩ := cleanup_removes_exactly_older
    [("x", ⟨"x", "c", "w", -90000000, none⟩),
     ("y", ⟨"y", "c", "w", -82800000, none⟩)] 0 24
  exact ⟨h3 "x" _ (by norm_num), h4 "y" _ (by simp) (by norm_num)⟩

/-! ### Reply resolution (`sendReply`, `POST /reply`) -/

/-- **C8.** `sendReply` resolves the target conversation via the direct
`conversationId` first when one is given, otherwise via the thread
mapping; when thread `"t1"` is mapped to conversation `"c1"` and the
conversation lookup succeeds, `POST /reply {threadId:"t1", message:"hi"}`
sends `"hi"` to conversation `"c1"` and reports status 200 with
`success := true` and `conversationId := "c1"`, while an unresolvable
request reports `success := false` with an error and sends nothing. -/
theorem reply_resolution (L : String → Option Conversation) (st : MappingStore)
    (now : Int) :
    (∀ (req : XMTPReplyRequest) (cid : String) (conv : Conversation),
      req.conversationId = some cid → cid ≠ "" → L cid = some conv →
      sendReply L st now req =
        (⟨true, some conv.id, none⟩, [(conv.id, req.message)], st))
    ∧ (∀ (mp : XMTPConversationMapping) (conv : Conversation),
        alookup st "t1" = some mp → mp.conversationId = "c1" →
        L "c1" = some conv → conv.id = "c1" →
        postReply L st now ⟨some "t1", none, some "hi"⟩ =
          ⟨200, ⟨true, some "c1", none⟩, [("c1", "hi")],
           aset st "t1" ⟨mp.threadId, mp.conversationId, mp.walletAddress,
             now, mp.agentId⟩⟩)
    ∧ (∀ (req : XMTPReplyRequest),
        (∀ cid : String, req.conversationId = some cid → cid ≠ "" → L cid = none) →
        (∀ tid : String, req.threadId = some tid → tid ≠ "" →
          ∀ mp : XMTPConversationMapping, alookup st tid = some mp →
            L mp.conversationId = none) →
        sendReply L st now req =
          (⟨false, none, some "Conversation not found"⟩, [], st)) := by
  refine ⟨?_, ?_, ?_⟩
  · intro req cid conv hcid hne hconv
    have ht : jsTruthy req.conversationId = true := by
      rw [hcid]
      simpa [jsTruthy] using hne
    have hd : req.conversationId.getD "" = cid := by rw [hcid]; rfl
    simp [sendReply, ht, hd, hconv]
  · intro mp conv hmp hmc hconv hcid
    have hsend : sendReply L st now ⟨some "t1", none, "hi"⟩ =
        (⟨true, some "c1", none⟩, [("c1", "hi")],
         aset st "t1" ⟨mp.threadId, mp.conversationId, mp.walletAddress,
           now, mp.agentId⟩) := by
      simp [sendReply, jsTruthy, hmp, hmc, hconv, hcid]
    simp [postReply, jsTruthy, hsend]
  · intro req hdir hmap
    have hconv0 :
        (if jsTruthy req.conversationId then L (req.conversationId.getD "")
         else none) = none := by
      cases hcid : req.conversationId with
      | none => simp [jsTruthy]
      | some cid =>
        by_cases hce : cid = ""
        · subst hce
          simp [jsTruthy]
        · have hl := hdir cid hcid hce
          simp [jsTruthy, hce, hl]
    simp only [sendReply]
    rw [hconv0]
    cases hti : req.threadId with
    | none => simp [jsTruthy]
    | some tid =>
      by_cases hte : tid = ""
      · subst hte
        simp [jsTruthy]
      · cases hmp : alookup st tid with
        | none => simp [jsTruthy, hte, hmp]
        | some mp =>
          have hl := hmap tid hti hte mp hmp
          simp [jsTruthy, hte, hmp, hl]

/-- Witness for C8: a concrete client in which only conversation `"c1"`
exists and a store mapping thread `"t1"` to it; a direct-id request, the
claim's `POST /reply` scenario, and an unresolvable request. -/
theorem reply_resolution_witness :
    sendReply (fun s => if s = "c1" then some ⟨"c1"⟩ else none)
        [("t1", ⟨"t1", "c1", "w", 0, none⟩)] 5 ⟨some "t1", some "c1", "direct"⟩ =
      (⟨true, some "c1", none⟩, [("c1", "direct")],
       [("t1", ⟨"t1", "c1", "w", 0, none⟩)])
    ∧ postReply (fun s => if s = "c1" then some ⟨"c1"⟩ else none)
        [("t1", ⟨"t1", "c1", "w", 0, none⟩)] 5 ⟨some "t1", none, some "hi"⟩ =
      ⟨200, ⟨true, some "c1", none⟩, [("c1", "hi")],
       aset [("t1", ⟨"t1", "c1", "w", 0, none⟩)] "t1" ⟨"t1", "c1", "w", 5, none⟩⟩
    ∧ sendReply (fun s => if s = "c1" then some ⟨"c1"⟩ else none)
        [("t1", ⟨"t1", "c1", "w", 0, none⟩)] 5 ⟨some "t2", none, "hello"⟩ =
      (⟨false, none, some "Conversation not found"⟩, [],
       [("t1", ⟨"t1", "c1", "w", 0, none⟩)]) := by
  obtain ⟨h1, h2, h3⟩ := reply_resolution
    (fun s => if s = "c1" then some ⟨"c1"⟩ else none)
    [("t1", ⟨"t1", "c1", "w", 0, none⟩)] 5
  refine ⟨h1 ⟨some "t1", some "c1", "direct"⟩ "c1" ⟨"c1"⟩ rfl (by decide) (by simp),
    h2 ⟨"t1", "c1", "w", 0, none⟩ ⟨"c1"⟩ (by simp [alookup]) rfl (by simp) rfl,
    h3 ⟨some "t2", none, "hello"⟩ ?_ ?_⟩
  · intro cid h
    exact absurd h (by simp)
  · intro tid htid hte mp hmp
    have : tid = "t2" := (Option.some.inj htid).symm
    subst this
    simp [alookup] at hmp
